import Mathlib

/-!
Verification development for the Leaderboards repository: a shallow embedding of
the counter store, session tracker, leaderboard-message bookkeeping
(src/models.py), and the embed fact extractors / rental delta tracker
(src/trackers.py, src/config.py).  SQLite tables are modelled as lists of rows
in rowid (insertion) order; timestamps are integers at whole-second
granularity.
-/

namespace Leaderboards

/-- One row of the `monthly_stats` / `overall_stats` tables (src/models.py,
`init_db`): a user id, a display name and the nine integer statistic columns,
each defaulting to 0. -/
structure StatRow where
  user_id : String
  username : String
  voice_time : Int := 0
  message_count : Int := 0
  lineage_time : Int := 0
  reaction_count : Int := 0
  apollo_events : Int := 0
  party_count : Int := 0
  aq_calls : Int := 0
  rental_count : Int := 0
  screenshot_count : Int := 0
  deriving DecidableEq, Repr

/-- The allow-list of statistic column names checked by `increment_stat`
(src/models.py lines 109-112). -/
def valid_stats : List String :=
  ["voice_time", "message_count", "lineage_time", "reaction_count",
   "apollo_events", "party_count", "aq_calls", "rental_count", "screenshot_count"]

/-- Read the statistic column named `cat` from a row (dynamic column access of
the SQL built in `increment_stat` / `get_top_stats`). -/
def getStat (r : StatRow) (cat : String) : Int :=
  if cat = "voice_time" then r.voice_time
  else if cat = "message_count" then r.message_count
  else if cat = "lineage_time" then r.lineage_time
  else if cat = "reaction_count" then r.reaction_count
  else if cat = "apollo_events" then r.apollo_events
  else if cat = "party_count" then r.party_count
  else if cat = "aq_calls" then r.aq_calls
  else if cat = "rental_count" then r.rental_count
  else if cat = "screenshot_count" then r.screenshot_count
  else 0

/-- Add `a` to the statistic column named `cat` of a row (the
`{stat_type} = {stat_type} + excluded.{stat_type}` update arm). -/
def addStat (r : StatRow) (cat : String) (a : Int) : StatRow :=
  if cat = "voice_time" then { r with voice_time := r.voice_time + a }
  else if cat = "message_count" then { r with message_count := r.message_count + a }
  else if cat = "lineage_time" then { r with lineage_time := r.lineage_time + a }
  else if cat = "reaction_count" then { r with reaction_count := r.reaction_count + a }
  else if cat = "apollo_events" then { r with apollo_events := r.apollo_events + a }
  else if cat = "party_count" then { r with party_count := r.party_count + a }
  else if cat = "aq_calls" then { r with aq_calls := r.aq_calls + a }
  else if cat = "rental_count" then { r with rental_count := r.rental_count + a }
  else if cat = "screenshot_count" then { r with screenshot_count := r.screenshot_count + a }
  else r

/-- A fresh row with every counter at its schema default 0. -/
def emptyRow (u n : String) : StatRow := { user_id := u, username := n }

/-- Overwrite the stored display name of a row (`username = excluded.username`). -/
def setUsername (r : StatRow) (n : String) : StatRow := { r with username := n }

/-- `INSERT ... ON CONFLICT(user_id) DO UPDATE` against a stats table: since
`user_id` is the primary key, an existing row (the first and only match) gets
`amount` added to the `cat` column and its username overwritten; otherwise a
new row is appended with `cat = amount` and the other columns at 0. -/
def upsertStat : List StatRow → String → String → String → Int → List StatRow
  | [], u, n, cat, a => [setUsername (addStat (emptyRow u n) cat a) n]
  | r :: rs, u, n, cat, a =>
      if r.user_id = u then setUsername (addStat r cat a) n :: rs
      else r :: upsertStat rs u n cat a

/-- `SELECT ... WHERE user_id = u` with a unique primary key: the first row of
the table whose `user_id` matches. -/
def findRow (tbl : List StatRow) (u : String) : Option StatRow :=
  tbl.find? (fun r => r.user_id == u)

/-- The stored value of column `cat` for user `u`, reading 0 when no row
exists (the value the next SQL upsert would add onto). -/
def statValT (tbl : List StatRow) (u cat : String) : Int :=
  match findRow tbl u with
  | some r => getStat r cat
  | none => 0

/-- The stored display name for user `u`, if a row exists. -/
def nameValT (tbl : List StatRow) (u : String) : Option String :=
  (findRow tbl u).map (·.username)

/-- One row of `voice_sessions` / `activity_sessions`: an autoincrement id, a
user, a display name, a start timestamp (`join_time` for voice sessions) and
the active flag. -/
structure Session where
  sid : Nat
  user_id : String
  username : String
  start_time : Int
  is_active : Bool
  deriving DecidableEq, Repr

/-- One row of `leaderboard_messages`: `id INTEGER PRIMARY KEY` (rowid alias),
the message type string and the stored message id. -/
structure LbMsg where
  rowid : Nat
  message_type : String
  message_id : Int
  deriving DecidableEq, Repr

/-- The database state created by `init_db`: the five tables, plus the next
fresh rowid for each autoincrement/rowid column. -/
structure DB where
  monthly_stats : List StatRow := []
  overall_stats : List StatRow := []
  voice_sessions : List Session := []
  activity_sessions : List Session := []
  leaderboard_messages : List LbMsg := []
  next_voice_id : Nat := 0
  next_activity_id : Nat := 0
  next_lb_id : Nat := 0
  deriving DecidableEq, Repr

/-- The empty database, as after `init_db` on a fresh file. -/
def emptyDB : DB := {}

/-- `increment_stat` (src/models.py lines 102-141): after the allow-list check
on `stat_type`, upsert the amount into both the monthly and the overall table
in one transaction; an invalid `stat_type` is a no-op. -/
def increment_stat (db : DB) (user_id username stat_type : String) (amount : Int) : DB :=
  if stat_type ∈ valid_stats then
    { db with
      monthly_stats := upsertStat db.monthly_stats user_id username stat_type amount,
      overall_stats := upsertStat db.overall_stats user_id username stat_type amount }
  else db

/-! ### Session tracker (src/models.py lines 198-312) -/

/-- `ORDER BY join_time DESC LIMIT 1` over the active sessions of a user: the
row with the greatest start timestamp among the user's active rows (on equal
timestamps the first in table order, one deterministic realisation of SQLite's
unspecified tie order). -/
def mostRecentActive (ss : List Session) (u : String) : Option Session :=
  (ss.filter (fun s => s.user_id == u && s.is_active)).foldl
    (fun acc s =>
      match acc with
      | none => some s
      | some b => if b.start_time < s.start_time then some s else acc)
    none

/-- `UPDATE ... SET is_active = 0 WHERE id = ?`. -/
def markInactive (ss : List Session) (i : Nat) : List Session :=
  ss.map (fun s => if s.sid = i then { s with is_active := false } else s)

/-- `start_voice_session`: unconditionally inserts a fresh active row with the
current time as `join_time`. -/
def start_voice_session (db : DB) (u n : String) (now : Int) : DB :=
  { db with
    voice_sessions := db.voice_sessions ++ [⟨db.next_voice_id, u, n, now, true⟩],
    next_voice_id := db.next_voice_id + 1 }

/-- `end_voice_session`: look up the most recent active voice session of the
user; if none, do nothing.  Otherwise `duration = int((now - join_time)
.total_seconds())` — at the whole-second granularity of this model simply
`now - join_time`, with no clamping of negative values — then increment
`voice_time` by that (possibly negative) duration and mark the row inactive. -/
def end_voice_session (db : DB) (u n : String) (now : Int) : DB :=
  match mostRecentActive db.voice_sessions u with
  | none => db
  | some s =>
      let duration := now - s.start_time
      let db1 := increment_stat db u n "voice_time" duration
      { db1 with voice_sessions := markInactive db1.voice_sessions s.sid }

/-- `start_activity_session`: inserts a fresh active row only when the user has
no active activity session (idempotent start). -/
def start_activity_session (db : DB) (u n : String) (now : Int) : DB :=
  if db.activity_sessions.any (fun s => s.user_id == u && s.is_active) then db
  else
    { db with
      activity_sessions :=
        db.activity_sessions ++ [⟨db.next_activity_id, u, n, now, true⟩],
      next_activity_id := db.next_activity_id + 1 }

/-- `end_activity_session`: same shape as `end_voice_session`, incrementing
`lineage_time`. -/
def end_activity_session (db : DB) (u n : String) (now : Int) : DB :=
  match mostRecentActive db.activity_sessions u with
  | none => db
  | some s =>
      let duration := now - s.start_time
      let db1 := increment_stat db u n "lineage_time" duration
      { db1 with activity_sessions := markInactive db1.activity_sessions s.sid }

/-! ### Leaderboard message bookkeeping (src/models.py lines 333-368) -/

/-- `save_leaderboard_message`: `INSERT OR REPLACE INTO leaderboard_messages
(message_type, message_id) VALUES (?, ?)`.  The omitted `id INTEGER PRIMARY
KEY` column receives NULL and is therefore assigned a fresh rowid, and no
uniqueness constraint exists on `message_type`, so the REPLACE clause can
never fire: the statement appends a new row every time. -/
def save_leaderboard_message (db : DB) (mtype : String) (mid : Int) : DB :=
  { db with
    leaderboard_messages := db.leaderboard_messages ++ [⟨db.next_lb_id, mtype, mid⟩],
    next_lb_id := db.next_lb_id + 1 }

/-- `get_leaderboard_message`: `SELECT message_id ... WHERE message_type = ?`
with `fetchone()` and no ORDER BY — the first matching row in table scan
(rowid) order, or `None` when absent. -/
def get_leaderboard_message (db : DB) (mtype : String) : Option Int :=
  (db.leaderboard_messages.find? (fun r => r.message_type == mtype)).map
    (·.message_id)

/-! ### Top statistics and the monthly reset (src/models.py lines 144-195) -/

/-- One result row of a `get_top_stats` query. -/
structure Entry where
  user_id : String
  username : String
  value : Int
  deriving DecidableEq, Repr

/-- `ORDER BY {stat} DESC` realised as a stable insertion sort: an element is
placed before the first existing element of strictly smaller value, so equal
values keep table order (one deterministic realisation of SQLite's
unspecified tie order). -/
def insertDesc (e : Entry) : List Entry → List Entry
  | [] => [e]
  | x :: xs => if x.value ≤ e.value then e :: x :: xs else x :: insertDesc e xs

/-- Sort a result list by `value` descending. -/
def sortByValueDesc : List Entry → List Entry
  | [] => []
  | e :: es => insertDesc e (sortByValueDesc es)

/-- One category of `get_top_stats`:
`SELECT user_id, username, {stat} AS value FROM {table} WHERE {stat} > 0
ORDER BY {stat} DESC LIMIT ?`. -/
def topForStat (tbl : List StatRow) (cat : String) (limit : Nat) : List Entry :=
  (sortByValueDesc
      ((tbl.filter (fun r => 0 < getStat r cat)).map
        (fun r => ⟨r.user_id, r.username, getStat r cat⟩))).take limit

/-- `get_top_stats`: the per-category dictionary, one query per statistic. -/
def get_top_stats (tbl : List StatRow) (limit : Nat) : List (String × List Entry) :=
  valid_stats.map (fun cat => (cat, topForStat tbl cat limit))

/-- `reset_monthly_stats`: `DELETE FROM monthly_stats`, then delete the active
rows of both session tables (`WHERE is_active = 1`); the overall table is not
touched. -/
def reset_monthly_stats (db : DB) : DB :=
  { db with
    monthly_stats := [],
    voice_sessions := db.voice_sessions.filter (fun s => !s.is_active),
    activity_sessions := db.activity_sessions.filter (fun s => !s.is_active) }

/-! ### Character-level utilities shared by the embed parsers
(src/trackers.py).  Text is modelled as `List Char`; Python regexes are
realised as explicit scanners with the same matching semantics. -/

/-- Python's regex `\s` over the ASCII range. -/
def isSpaceChar (c : Char) : Bool :=
  c = ' ' || c = '\t' || c = '\n' || c = '\r' || c = '\x0b' || c = '\x0c'

/-- Consume an exact literal from the front of the text, returning the rest. -/
def dropLit : List Char → List Char → Option (List Char)
  | [], s => some s
  | _ :: _, [] => none
  | l :: ls, c :: cs => if c = l then dropLit ls cs else none

/-- Does the text begin with the given literal? -/
def startsWithChars (lit s : List Char) : Bool := (dropLit lit s).isSome

/-- Python's `in` on strings: substring containment. -/
def containsSub : List Char → List Char → Bool
  | needle, [] => (dropLit needle ([] : List Char)).isSome
  | needle, c :: cs => (dropLit needle (c :: cs)).isSome || containsSub needle cs

/-- Python's `str.strip()`: drop whitespace from both ends. -/
def trimChars (s : List Char) : List Char :=
  ((s.dropWhile (fun c => isSpaceChar c)).reverse.dropWhile
    (fun c => isSpaceChar c)).reverse

/-- Python `$` without MULTILINE also matches just before one trailing
newline; a non-greedy group whose lookahead falls back on `$` therefore stops
before such a newline. -/
def dropTrailingNewline (s : List Char) : List Char :=
  match s.getLast? with
  | some c => if c = '\n' then s.dropLast else s
  | none => s

/-- `str.split('\n')`. -/
def splitOnNewline : List Char → List (List Char)
  | [] => [[]]
  | c :: cs =>
      if c = '\n' then [] :: splitOnNewline cs
      else
        match splitOnNewline cs with
        | [] => [[c]]
        | l :: ls => (c :: l) :: ls

/-- The optional `!` of the mention pattern `<@!?(\d+)>`: drop one leading
`!` if present (backtracking cannot differ, since `!` is not a digit). -/
def mentionAfterBang (rest : List Char) : List Char :=
  match rest with
  | '!' :: t => t
  | _ => rest

/-- The `(\d+)>` part of the mention pattern: one or more digits, then the
closing `>`; returns the digit group and the text after the `>`. -/
def mentionDigitsPart (u : List Char) : Option (List Char × List Char) :=
  let ds := u.takeWhile Char.isDigit
  if ds.isEmpty then none
  else
    match u.drop ds.length with
    | '>' :: tail => some (ds, tail)
    | _ => none

/-- One position's match of the mention pattern `<@!?(\d+)>`: the digits of
the user id and the text after the closing `>`. -/
def matchMentionAt (s : List Char) : Option (List Char × List Char) :=
  match s with
  | '<' :: '@' :: rest => mentionDigitsPart (mentionAfterBang rest)
  | _ => none

/-- `re.findall` for the mention pattern.  A mention token contains `<` only
at its first position, so matches can never overlap and scanning every
position left to right yields exactly the findall list. -/
def findMentions : List Char → List String
  | [] => []
  | c :: cs =>
      match matchMentionAt (c :: cs) with
      | some (ds, _) => String.mk ds :: findMentions cs
      | none => findMentions cs

/-! ### Apollo attendance extractor (src/trackers.py lines 214-233) -/

/-- The literal head of the accepted-span pattern `✅ Accepted \((\d+)\)`. -/
def acceptedTag : List Char := "✅ Accepted (".toList

/-- Match the accepted marker at one position: the literal tag, one or more
digits, a closing parenthesis; returns the remaining text (starting group 2). -/
def matchAcceptedAt (s : List Char) : Option (List Char) :=
  (dropLit acceptedTag s).bind fun rest =>
    let ds := rest.takeWhile Char.isDigit
    if ds.isEmpty then none
    else
      match rest.drop ds.length with
      | ')' :: tail => some tail
      | _ => none

/-- `re.search` for the accepted-span pattern: the text after the leftmost
`✅ Accepted (N)` marker. -/
def findAcceptedSpan : List Char → Option (List Char)
  | [] => none
  | c :: cs =>
      match matchAcceptedAt (c :: cs) with
      | some rest => some rest
      | none => findAcceptedSpan cs

/-- Group 2 of the pattern, `([\s\S]*?)(?=❌|$)`: non-greedy, so everything up
to the first `❌`, or — when no `❌` occurs — up to `$` (end of text, with
`$` preferring the position before a single trailing newline). -/
def takeUntilDeclinedMark (s : List Char) : List Char :=
  if '❌' ∈ s then s.takeWhile (fun c => c ≠ '❌')
  else dropTrailingNewline s

/-- `parse_apollo_embed`: one attendance user id per mention token found by
`re.findall` inside group 2 of the leftmost accepted-span match.  The
per-mention `guild.fetch_member` call and the `apollo_events` increment are
platform I/O applied to each extracted id downstream; the extraction itself
is this pure function. -/
def parse_apollo_embed (desc : Option String) : List String :=
  match desc with
  | none => []
  | some d =>
      if d = "" then []
      else
        match findAcceptedSpan d.toList with
        | some rest => findMentions (takeUntilDeclinedMark rest)
        | none => []

/-! ### Party-creation extractor (src/trackers.py lines 236-253) -/

/-- Match the creator pattern `[Zz]akladatel[a]?:\s*<@!?(\d+)>` at one
position.  The optional `a` backtracks against the following colon; `\s*` is
greedy and the following `<` is never whitespace, so no further backtracking
arises. -/
def matchPartyAt (s : List Char) : Option String :=
  match s with
  | c :: rest =>
      if c = 'Z' || c = 'z' then
        (dropLit "akladatel".toList rest).bind fun r1 =>
          let r2 : Option (List Char) :=
            match r1 with
            | 'a' :: ':' :: t => some t
            | ':' :: t => some t
            | _ => none
          r2.bind fun r3 =>
            (matchMentionAt (r3.dropWhile (fun c2 => isSpaceChar c2))).map
              (fun p => String.mk p.1)
      else none
  | [] => none

/-- `re.search` for the creator pattern: leftmost match only. -/
def findPartyCreator : List Char → Option String
  | [] => none
  | c :: cs =>
      match matchPartyAt (c :: cs) with
      | some uid => some uid
      | none => findPartyCreator cs

/-- `parse_party_embed`: at most one party-creation fact. -/
def parse_party_embed (desc : Option String) : List String :=
  match desc with
  | none => []
  | some d =>
      if d = "" then []
      else
        match findPartyCreator d.toList with
        | some uid => [uid]
        | none => []

/-! ### Rental extractor and delta tracker (src/trackers.py lines 19-38 and
256-311) -/

/-- The owner label literal of the rental patterns. -/
def maTag : List Char := "Má:".toList

/-- The second lookahead alternative of the item-list pattern. -/
def vzalTag : List Char := "Vzal si".toList

/-- One position's match of the owner pattern `Má:\s+([^\n]+)`: the literal
tag, at least one whitespace character, then the greedy non-newline group,
which the caller strips.  When the text ends inside the whitespace run, the
greedy quantifiers backtrack so that the group receives trailing non-newline
whitespace, which strips to the empty name. -/
def matchOwnerAt (s : List Char) : Option (String × List Char) :=
  (dropLit maTag s).bind fun after =>
    let w := after.takeWhile (fun c => isSpaceChar c)
    let t := after.drop w.length
    if w.isEmpty then none
    else
      match t with
      | _ :: _ =>
          let g := t.takeWhile (fun c2 => c2 ≠ '\n')
          some (String.mk (trimChars g), t.drop g.length)
      | [] =>
          if (w.drop 1).any (fun c2 => c2 ≠ '\n') then some ("", [])
          else none

/-- `re.finditer` over the owner pattern: leftmost matches, scanning resuming
after each match.  Every successful match consumes at least four characters,
so the text length bounds the recursion. -/
def findOwnersAux : Nat → List Char → List String
  | 0, _ => []
  | _ + 1, [] => []
  | fuel + 1, c :: cs =>
      match matchOwnerAt (c :: cs) with
      | some (name, rest) => name :: findOwnersAux fuel rest
      | none => findOwnersAux fuel cs

/-- All owner names of a rental embed, in order of appearance. -/
def findOwners (s : List Char) : List String := findOwnersAux s.length s

/-- The non-greedy group `([\s\S]*?)` with lookahead `(?=Má:|Vzal si|$)`:
everything up to the first owner label or `Vzal si` line, falling back on
`$` (which prefers the position before a single trailing newline). -/
def untilNextOwnerTagAux : List Char → List Char
  | [] => []
  | c :: cs =>
      if startsWithChars maTag (c :: cs) || startsWithChars vzalTag (c :: cs) then []
      else c :: untilNextOwnerTagAux cs

/-- Is either lookahead literal present anywhere in the text? -/
def hasOwnerTag : List Char → Bool
  | [] => false
  | c :: cs =>
      startsWithChars maTag (c :: cs) || startsWithChars vzalTag (c :: cs) ||
        hasOwnerTag cs

/-- Apply the lookahead of the item-list pattern to the text after the user's
header line. -/
def untilNextOwnerTag (s : List Char) : List Char :=
  if hasOwnerTag s then untilNextOwnerTagAux s else dropTrailingNewline s

/-- One position's match of the item-list pattern
`Má:\s+{user}\s*\n([\s\S]*?)(?=Má:|Vzal si|$)`, returning group 1.  The
stripped owner names this is called with never begin with whitespace, so the
greedy `\s+` consumes exactly the whitespace run before the name; `\s*\n`
consumes the following whitespace up to and including its last newline. -/
def matchCountAt (uname : List Char) (s : List Char) : Option (List Char) :=
  (dropLit maTag s).bind fun after =>
    let w := after.takeWhile (fun c => isSpaceChar c)
    let t := after.drop w.length
    match uname with
    | [] =>
        let tailNonNl := w.reverse.takeWhile (fun c => c ≠ '\n')
        let consumed := w.length - tailNonNl.length
        if w.isEmpty then none
        else if 2 ≤ consumed then some (untilNextOwnerTag (after.drop consumed))
        else none
    | _ :: _ =>
        if w.isEmpty then none
        else
          (dropLit uname t).bind fun after1 =>
            let w2 := after1.takeWhile (fun c => isSpaceChar c)
            let tailNonNl := w2.reverse.takeWhile (fun c => c ≠ '\n')
            if tailNonNl.length = w2.length then none
            else some (untilNextOwnerTag (after1.drop (w2.length - tailNonNl.length)))

/-- `re.search` for the item-list pattern: group 1 of the leftmost match. -/
def findCountGroup (uname : List Char) : List Char → Option (List Char)
  | [] => none
  | c :: cs =>
      match matchCountAt uname (c :: cs) with
      | some g => some g
      | none => findCountGroup uname cs

/-- The filter of the item-line comprehension: boilerplate availability and
status lines are excluded, checked on the unstripped line. -/
def isExcludedLine (line : List Char) : Bool :=
  containsSub "Dostupný".toList line || line.contains '✅' || line.contains '❌'

/-- `get_rental_item_count_by_username` (src/trackers.py lines 22-38): locate
the user's item block and count its non-empty, non-boilerplate lines; 0 when
the pattern does not match. -/
def get_rental_item_count_by_username (desc : String) (username : String) : Nat :=
  match findCountGroup username.toList desc.toList with
  | none => 0
  | some g =>
      ((splitOnNewline g).filter
        (fun line => !(trimChars line).isEmpty && !isExcludedLine line)).length

/-- A discrete fact extracted from an announcer embed: one counter increment
of one unit for the named user. -/
inductive Fact where
  | attendance (uid : String)
  | party (uid : String)
  | rental (owner : String)
  deriving DecidableEq, Repr

/-- The module-level `RENTAL_ITEM_COUNTS` dictionary: username → last observed
item count, process-local and initially empty. -/
abbrev RentalState := List (String × Nat)

/-- `RENTAL_ITEM_COUNTS.get(username, 0)`. -/
def lookupCount (st : RentalState) (u : String) : Nat :=
  match st.find? (fun p => p.1 == u) with
  | some p => p.2
  | none => 0

/-- `RENTAL_ITEM_COUNTS[username] = current`. -/
def setCount : RentalState → String → Nat → RentalState
  | [], u, c => [(u, c)]
  | (k, v) :: rest, u, c =>
      if k = u then (u, c) :: rest else (k, v) :: setCount rest u c

/-- The per-owner body of the `parse_rental_embed` loop (src/trackers.py lines
276-308): compare the current item count against the stored one (default 0);
when the count grew and the guild member search succeeded (`memberFound`
stands for that platform call), emit one single-unit `rental_count` increment
per newly rented item; when it shrank or stayed equal, emit nothing; in every
branch overwrite the stored count with the current one. -/
def rental_observe (st : RentalState) (username : String) (current : Nat)
    (memberFound : Bool) : List Fact × RentalState :=
  let previous := lookupCount st username
  let events :=
    if previous < current ∧ memberFound then
      List.replicate (current - previous) (Fact.rental username)
    else []
  (events, setCount st username current)

/-- `parse_rental_embed` (src/trackers.py lines 256-311): find every owner
label in the description, count that owner's current items, and run the delta
logic; `resolve` stands for the guild member search by display name. -/
def parse_rental_embeds (resolve : String → Bool) (desc : Option String)
    (st : RentalState) : List Fact × RentalState :=
  match desc with
  | none => ([], st)
  | some d =>
      if d = "" then ([], st)
      else
        (findOwners d.toList).foldl
          (fun acc uname =>
            let current := get_rental_item_count_by_username d uname
            let p := rental_observe acc.2 uname current (resolve uname)
            (acc.1 ++ p.1, p.2))
          ([], st)

/-! ### Announcer dispatch (src/trackers.py lines 170-211, src/config.py
`BOT_NAMES`) -/

/-- `BOT_NAMES["apollo"]`. -/
def apolloBotName : String := "Apollo"

/-- `BOT_NAMES["party_maker"]`. -/
def partyBotName : String := "Party Jack"

/-- `BOT_NAMES["rental"]`. -/
def rentalBotName : String := "Navrátil"

/-- `BOT_NAMES["accounting"]`; declared in config.py but matched by no branch
of `parse_bot_embeds` in src/. -/
def accountingBotName : String := "Mišička z účtárny"

/-- Python truthiness of `embed.description`: present and non-empty. -/
def descTruthy : Option String → Bool
  | none => false
  | some s => s != ""

/-- An announcer embed: title and description, each possibly absent. -/
structure Embed where
  title : Option String
  description : Option String
  deriving DecidableEq, Repr

/-- A platform message as far as `parse_bot_embeds` reads it. -/
structure Msg where
  author_name : String
  author_id : Nat
  embeds : List Embed
  deriving DecidableEq, Repr

/-- The announcer-name dispatch of `parse_bot_embeds` applied to one embed:
Apollo, Party Maker and Rental branches, each also requiring a truthy
description; any other announcer produces nothing. -/
def dispatchEmbed (resolve : String → Bool) (botName : String) (e : Embed)
    (st : RentalState) : List Fact × RentalState :=
  if botName = apolloBotName ∧ descTruthy e.description then
    ((parse_apollo_embed e.description).map Fact.attendance, st)
  else if botName = partyBotName ∧ descTruthy e.description then
    ((parse_party_embed e.description).map Fact.party, st)
  else if botName = rentalBotName ∧ descTruthy e.description then
    parse_rental_embeds resolve e.description st
  else ([], st)

/-- `parse_bot_embeds` (src/trackers.py lines 170-211): return immediately on
an empty embed list; skip the bot's own messages; otherwise dispatch on
`message.embeds[0]` only. -/
def parse_bot_embeds (resolve : String → Bool) (selfId : Nat) (m : Msg)
    (st : RentalState) : List Fact × RentalState :=
  match m.embeds with
  | [] => ([], st)
  | e :: _ =>
      if m.author_id = selfId then ([], st)
      else dispatchEmbed resolve m.author_name e st

/-! ### Operation sequences over the store -/

/-- One tracked operation against the store, as issued by the event handlers
(src/trackers.py) and the scheduler (src/scheduler.py). -/
inductive Op where
  | startVoice (u n : String) (t : Int)
  | endVoice (u n : String) (t : Int)
  | startActivity (u n : String) (t : Int)
  | endActivity (u n : String) (t : Int)
  | inc (u n cat : String) (a : Int)
  | resetMonthly
  deriving DecidableEq, Repr

/-- Execute one operation. -/
def applyOp (db : DB) : Op → DB
  | .startVoice u n t => start_voice_session db u n t
  | .endVoice u n t => end_voice_session db u n t
  | .startActivity u n t => start_activity_session db u n t
  | .endActivity u n t => end_activity_session db u n t
  | .inc u n cat a => increment_stat db u n cat a
  | .resetMonthly => reset_monthly_stats db

/-- The number of active activity-session rows stored for a user. -/
def activeActCount (db : DB) (u : String) : Nat :=
  (db.activity_sessions.filter (fun s => s.user_id == u && s.is_active)).length

/-! ### Currency extractor of the accounting announcer.

Modelled from the spec: the accounting announcer's currency extractor is
absent from src/ — config.py declares the announcer identity
(`BOT_NAMES["accounting"]`, `accountingBotName` above), but no branch of
`parse_bot_embeds` matches it and no `currency` column exists in the store.
The definitions below follow §4.3 of the spec: the extractor runs only when
the message title marks a new transaction (`txMarker` stands for the marker
text, which src/ does not fix); the amount token standing beside the
currency-unit label (`unitLabel`, likewise not fixed by src/) is stripped of
thousands/decimal separators and parsed as a signed integer; its absolute
value is paired with the first user mention found anywhere in the body; a
failed integer parse drops the fact (logged, not raised). -/

/-- Modelled from the spec: a run of decimal digits as a number. -/
def parseDigitsAcc : List Char → Nat → Option Nat
  | [], acc => some acc
  | c :: cs, acc =>
      if c.isDigit then parseDigitsAcc cs (acc * 10 + (c.toNat - 48)) else none

/-- Modelled from the spec: a nonempty all-digit string as a number; anything
else fails to parse. -/
def parseDigits : List Char → Option Nat
  | [] => none
  | c :: cs => parseDigitsAcc (c :: cs) 0

/-- Modelled from the spec: a signed decimal integer. -/
def parseSignedInt : List Char → Option Int
  | '-' :: ds => (parseDigits ds).map (fun m => -(m : Int))
  | '+' :: ds => (parseDigits ds).map (fun m => (m : Int))
  | ds => (parseDigits ds).map (fun m => (m : Int))

/-- Modelled from the spec: strip thousands/decimal separators from an amount
token. -/
def stripSeparators (s : List Char) : List Char :=
  s.filter (fun c => !(c = ',' || c = '.' || c = ' '))

/-- Characters that may appear inside an amount token next to the label. -/
def isAmountChar (c : Char) : Bool :=
  c.isDigit || c = '-' || c = '+' || c = ',' || c = '.' || c = ' '

/-- The text before the first occurrence of the label, if the label occurs. -/
def splitAtLabel (label : List Char) : List Char → Option (List Char)
  | [] => if startsWithChars label [] then some [] else none
  | c :: cs =>
      if startsWithChars label (c :: cs) then some []
      else (splitAtLabel label cs).map (fun pre => c :: pre)

/-- Modelled from the spec: the amount token standing immediately before the
currency-unit label. -/
def amountTokenBefore (label body : List Char) : Option (List Char) :=
  (splitAtLabel label body).map (fun pre =>
    trimChars (pre.reverse.takeWhile isAmountChar).reverse)

/-- Modelled from the spec: the parsed signed amount beside the label, `none`
when the label is absent or the token fails to parse as an integer. -/
def extractAmount (label body : List Char) : Option Int :=
  (amountTokenBefore label body).bind (fun tok => parseSignedInt (stripSeparators tok))

/-- The first user mention anywhere in the body. -/
def firstMention (body : List Char) : Option String := (findMentions body).head?

/-- Modelled from the spec: does the message title mark a new transaction? -/
def titleMarksNewTransaction (txMarker : String) (title : Option String) : Bool :=
  match title with
  | none => false
  | some t => containsSub txMarker.toList t.toList

/-- Modelled from the spec: the currency extractor — at most one
`CurrencyFact (userId, amount)` per message, amount taken absolute. -/
def parse_accounting_embed (txMarker unitLabel : String) (title : Option String)
    (desc : String) : List (String × Nat) :=
  if titleMarksNewTransaction txMarker title then
    match extractAmount unitLabel.toList desc.toList, firstMention desc.toList with
    | some n, some uid => [(uid, n.natAbs)]
    | _, _ => []
  else []

/-- A sample database with one counter, one closed and one open voice session
and one closed and one open activity session, used to evaluate the reset. -/
def sampleResetDB : DB :=
  start_activity_session (end_activity_session (start_activity_session
    (start_voice_session (end_voice_session (start_voice_session
      (increment_stat emptyDB "u" "n" "message_count" 3) "u" "n" 5) "u" "n" 9)
      "u" "n" 11) "u" "n" 2) "u" "n" 6) "u" "n" 8

/-- A sample monthly table with two users at distinct `message_count` values,
used to evaluate the top query. -/
def sampleTopTbl : List StatRow :=
  (increment_stat (increment_stat emptyDB "u1" "n1" "message_count" 5)
    "u2" "n2" "message_count" 2).monthly_stats

/-! ### Basic lemmas about the store -/

theorem addStat_user_id (r : StatRow) (cat : String) (a : Int) :
    (addStat r cat a).user_id = r.user_id := by
  unfold addStat
  repeat' split
  all_goals rfl

theorem addStat_username (r : StatRow) (cat : String) (a : Int) :
    (addStat r cat a).username = r.username := by
  unfold addStat
  repeat' split
  all_goals rfl

theorem setUsername_user_id (r : StatRow) (n : String) :
    (setUsername r n).user_id = r.user_id := rfl

theorem setUsername_username (r : StatRow) (n : String) :
    (setUsername r n).username = n := rfl

theorem getStat_setUsername (r : StatRow) (n cat : String) :
    getStat (setUsername r n) cat = getStat r cat := by
  unfold getStat setUsername
  repeat' split
  all_goals rfl

theorem getStat_addStat_self (r : StatRow) (cat : String) (a : Int)
    (hcat : cat ∈ valid_stats) :
    getStat (addStat r cat a) cat = getStat r cat + a := by
  fin_cases hcat <;> rfl

theorem getStat_emptyRow (u n cat : String) : getStat (emptyRow u n) cat = 0 := by
  unfold getStat emptyRow
  repeat' split
  all_goals rfl

theorem findRow_cons_self (r : StatRow) (rs : List StatRow) (u : String)
    (h : r.user_id = u) : findRow (r :: rs) u = some r := by
  unfold findRow
  rw [List.find?_cons_of_pos]
  simp [h]

theorem findRow_cons_ne (r : StatRow) (rs : List StatRow) (u : String)
    (h : ¬ r.user_id = u) : findRow (r :: rs) u = findRow rs u := by
  unfold findRow
  rw [List.find?_cons_of_neg]
  simp [h]

/-- After an upsert for user `u`, a row for `u` exists, its display name is
the freshly written one, and its `cat` value grew by exactly `a`. -/
theorem upsert_self (tbl : List StatRow) (u n cat : String) (a : Int)
    (hcat : cat ∈ valid_stats) :
    statValT (upsertStat tbl u n cat a) u cat = statValT tbl u cat + a ∧
    nameValT (upsertStat tbl u n cat a) u = some n := by
  induction tbl with
  | nil =>
      have hid : (setUsername (addStat (emptyRow u n) cat a) n).user_id = u := by
        rw [setUsername_user_id, addStat_user_id]; rfl
      constructor
      · rw [upsertStat, statValT, statValT, findRow_cons_self _ _ _ hid]
        simp [findRow, getStat_setUsername, getStat_addStat_self _ _ _ hcat,
          getStat_emptyRow]
      · rw [upsertStat, nameValT, findRow_cons_self _ _ _ hid]
        simp [setUsername_username]
  | cons r rs ih =>
      by_cases h : r.user_id = u
      · have hid : (setUsername (addStat r cat a) n).user_id = u := by
          rw [setUsername_user_id, addStat_user_id]; exact h
        constructor
        · rw [upsertStat, if_pos h, statValT, statValT,
            findRow_cons_self _ _ _ hid, findRow_cons_self _ _ _ h]
          simp [getStat_setUsername, getStat_addStat_self _ _ _ hcat]
        · rw [upsertStat, if_pos h, nameValT, findRow_cons_self _ _ _ hid]
          simp [setUsername_username]
      · constructor
        · rw [upsertStat, if_neg h, statValT, statValT,
            findRow_cons_ne _ _ _ h, findRow_cons_ne _ _ _ h]
          exact ih.1
        · rw [upsertStat, if_neg h, nameValT, findRow_cons_ne _ _ _ h]
          exact ih.2

/-- `increment_stat` with a valid category adds the amount to the stored value
in both tables and overwrites the display name in both tables. -/
theorem increment_stat_self (db : DB) (u n cat : String) (a : Int)
    (hcat : cat ∈ valid_stats) :
    statValT (increment_stat db u n cat a).monthly_stats u cat
        = statValT db.monthly_stats u cat + a ∧
    statValT (increment_stat db u n cat a).overall_stats u cat
        = statValT db.overall_stats u cat + a ∧
    nameValT (increment_stat db u n cat a).monthly_stats u = some n ∧
    nameValT (increment_stat db u n cat a).overall_stats u = some n := by
  unfold increment_stat
  rw [if_pos hcat]
  exact ⟨(upsert_self _ u n cat a hcat).1, (upsert_self _ u n cat a hcat).1,
    (upsert_self _ u n cat a hcat).2, (upsert_self _ u n cat a hcat).2⟩

/-- Overwriting a rental count stores exactly the new value. -/
theorem lookupCount_setCount_self (st : RentalState) (u : String) (c : Nat) :
    lookupCount (setCount st u c) u = c := by
  induction st with
  | nil => simp [setCount, lookupCount, List.find?]
  | cons p rest ih =>
      obtain ⟨k, v⟩ := p
      by_cases h : k = u
      · simp [setCount, h, lookupCount, List.find?]
      · simp only [setCount, if_neg h]
        have hb : (k == u) = false := by simp [h]
        simp only [lookupCount, List.find?, hb] at ih ⊢
        exact ih

/-- Folding a nonempty run of `increment_stat` calls for one user and one
valid category over any starting database adds the sum of the amounts to the
stored value and leaves the last call's display name, in both tables. -/
theorem foldl_increment_accumulates (u cat : String) (hcat : cat ∈ valid_stats) :
    ∀ (calls : List (String × Int)), calls ≠ [] → ∀ db : DB,
      statValT ((calls.foldl (fun d p => increment_stat d u p.1 cat p.2)
            db)).monthly_stats u cat
          = statValT db.monthly_stats u cat + (calls.map Prod.snd).sum
      ∧ statValT ((calls.foldl (fun d p => increment_stat d u p.1 cat p.2)
            db)).overall_stats u cat
          = statValT db.overall_stats u cat + (calls.map Prod.snd).sum
      ∧ nameValT ((calls.foldl (fun d p => increment_stat d u p.1 cat p.2)
            db)).monthly_stats u
          = some (((calls.getLast?).map Prod.fst).getD "")
      ∧ nameValT ((calls.foldl (fun d p => increment_stat d u p.1 cat p.2)
            db)).overall_stats u
          = some (((calls.getLast?).map Prod.fst).getD "") := by
  intro calls
  induction calls with
  | nil => intro h; exact absurd rfl h
  | cons p rest ih =>
      intro _ db
      have hstep := increment_stat_self db u p.1 cat p.2 hcat
      cases rest with
      | nil =>
          simp only [List.foldl, List.map_cons, List.map_nil, List.sum_cons,
            List.sum_nil, List.getLast?_singleton, Option.map_some',
            Option.getD_some, add_zero]
          exact ⟨hstep.1, hstep.2.1, hstep.2.2.1, hstep.2.2.2⟩
      | cons q rs =>
          have h := ih (by simp) (increment_stat db u p.1 cat p.2)
          simp only [List.foldl] at h ⊢
          refine ⟨?_, ?_, ?_, ?_⟩
          · rw [h.1, hstep.1]
            simp only [List.map_cons, List.sum_cons]
            ring
          · rw [h.2.1, hstep.2.1]
            simp only [List.map_cons, List.sum_cons]
            ring
          · rw [h.2.2.1, List.getLast?_cons_cons]
          · rw [h.2.2.2, List.getLast?_cons_cons]

/-- C1: for every finite sequence of `increment(u, name_i, cat, a_i)` calls
with the same user `u`, a valid category `cat` and amounts `a_i ≥ 1`, starting
from empty tables, the stored counter for `(u, cat)` equals the sum of all
`a_i` in both the monthly and the all-time table, and the stored display name
for `u` equals the name from the last call. -/
theorem claim_c1_increments_accumulate (u cat : String) (calls : List (String × Int))
    (hcat : cat ∈ valid_stats) (hne : calls ≠ [])
    (hamt : ∀ p ∈ calls, 1 ≤ p.2) :
    statValT ((calls.foldl (fun d p => increment_stat d u p.1 cat p.2)
          emptyDB)).monthly_stats u cat = (calls.map Prod.snd).sum
    ∧ statValT ((calls.foldl (fun d p => increment_stat d u p.1 cat p.2)
          emptyDB)).overall_stats u cat = (calls.map Prod.snd).sum
    ∧ nameValT ((calls.foldl (fun d p => increment_stat d u p.1 cat p.2)
          emptyDB)).monthly_stats u
        = some (((calls.getLast?).map Prod.fst).getD "")
    ∧ nameValT ((calls.foldl (fun d p => increment_stat d u p.1 cat p.2)
          emptyDB)).overall_stats u
        = some (((calls.getLast?).map Prod.fst).getD "") := by
  have h := foldl_increment_accumulates u cat hcat calls hne emptyDB
  have h0m : statValT emptyDB.monthly_stats u cat = 0 := rfl
  have h0o : statValT emptyDB.overall_stats u cat = 0 := rfl
  rw [h0m, zero_add] at h
  rw [h0o, zero_add] at h
  exact h

/-- Witness for C1: two increments of 2 and 3 for user `u1` under the
`message_count` category leave 5 in both tables and the display name of the
second call. -/
theorem claim_c1_increments_accumulate_witness :
    statValT (([(("alice" : String), (2 : Int)), ("bob", 3)].foldl
          (fun d p => increment_stat d "u1" p.1 "message_count" p.2)
          emptyDB)).monthly_stats "u1" "message_count" = 5
    ∧ statValT (([(("alice" : String), (2 : Int)), ("bob", 3)].foldl
          (fun d p => increment_stat d "u1" p.1 "message_count" p.2)
          emptyDB)).overall_stats "u1" "message_count" = 5
    ∧ nameValT (([(("alice" : String), (2 : Int)), ("bob", 3)].foldl
          (fun d p => increment_stat d "u1" p.1 "message_count" p.2)
          emptyDB)).monthly_stats "u1" = some "bob"
    ∧ nameValT (([(("alice" : String), (2 : Int)), ("bob", 3)].foldl
          (fun d p => increment_stat d "u1" p.1 "message_count" p.2)
          emptyDB)).overall_stats "u1" = some "bob" := by
  have h := claim_c1_increments_accumulate "u1" "message_count"
    [("alice", 2), ("bob", 3)] (by decide) (by decide) (by decide)
  simpa using h

/-- C2 counterexample: a voice session started at time 15 and ended at time 10
(clock skew, start in the future) increments `voice_time` by −5.  The claim
requires the duration passed to the counter increment to be
`max 0 (now − start) = 0`; the code has no clamp and passes −5. -/
theorem claim_c2_counterexample :
    statValT (end_voice_session (start_voice_session emptyDB "u" "n" 15)
        "u" "n" 10).monthly_stats "u" "voice_time" = -5
    ∧ (-5 : Int) ≠ max 0 ((10 : Int) - 15) := by
  constructor
  · decide
  · decide

/-- C2 (amended): for every `endSession` call that finds an active session,
the duration passed to the counter increment equals `now − start` in whole
seconds with no clamping: a negative raw delta (start time in the future) is
added as a negative amount, and the operation is total (never raising). -/
theorem claim_c2_duration_is_raw_delta (db : DB) (u n : String) (now : Int) :
    (∀ s, mostRecentActive db.voice_sessions u = some s →
      statValT (end_voice_session db u n now).monthly_stats u "voice_time"
          = statValT db.monthly_stats u "voice_time" + (now - s.start_time)
      ∧ statValT (end_voice_session db u n now).overall_stats u "voice_time"
          = statValT db.overall_stats u "voice_time" + (now - s.start_time))
    ∧ (∀ s, mostRecentActive db.activity_sessions u = some s →
      statValT (end_activity_session db u n now).monthly_stats u "lineage_time"
          = statValT db.monthly_stats u "lineage_time" + (now - s.start_time)
      ∧ statValT (end_activity_session db u n now).overall_stats u "lineage_time"
          = statValT db.overall_stats u "lineage_time" + (now - s.start_time)) := by
  constructor
  · intro s hs
    have h := increment_stat_self db u n "voice_time" (now - s.start_time) (by decide)
    simp only [end_voice_session, hs]
    exact ⟨h.1, h.2.1⟩
  · intro s hs
    have h := increment_stat_self db u n "lineage_time" (now - s.start_time) (by decide)
    simp only [end_activity_session, hs]
    exact ⟨h.1, h.2.1⟩

/-- Witness for the amended C2: ending a voice session opened at 5 at time 12
adds 7 to `voice_time`; ending an activity session opened at 3 at time 12
adds 9 to `lineage_time`. -/
theorem claim_c2_duration_is_raw_delta_witness :
    statValT (end_voice_session (start_voice_session
          (start_activity_session emptyDB "u" "n" 3) "u" "n" 5)
        "u" "n" 12).monthly_stats "u" "voice_time" = 7
    ∧ statValT (end_activity_session (start_voice_session
          (start_activity_session emptyDB "u" "n" 3) "u" "n" 5)
        "u" "n" 12).monthly_stats "u" "lineage_time" = 9 := by
  have h := claim_c2_duration_is_raw_delta
    (start_voice_session (start_activity_session emptyDB "u" "n" 3) "u" "n" 5)
    "u" "n" 12
  have h1 := (h.1 ⟨0, "u", "n", 5, true⟩ (by decide)).1
  have h2 := (h.2 ⟨0, "u", "n", 3, true⟩ (by decide)).1
  constructor
  · rw [h1]; decide
  · rw [h2]; decide

/-- C3: evaluating the code at the failing input.  After
`save_leaderboard_message("monthly", 100)` then
`save_leaderboard_message("monthly", 200)`, `get_leaderboard_message
("monthly")` returns 100, not 200: the `INSERT OR REPLACE` never replaces —
the omitted `id INTEGER PRIMARY KEY` column receives a fresh rowid and
`message_type` carries no uniqueness constraint, so every save appends a new
row — and the un-ordered `SELECT ... fetchone()` returns the oldest row.  The
claim (each set overwrites the single stored reference, get returns the last
set value) describes the evident intent of `INSERT OR REPLACE` and of the
edit-in-place protocol in src/leaderboard.py; the schema is the slip. -/
theorem claim_c3_get_returns_first_saved :
    get_leaderboard_message
        (save_leaderboard_message
          (save_leaderboard_message emptyDB "monthly" 100) "monthly" 200)
        "monthly" = some 100
    ∧ get_leaderboard_message
        (save_leaderboard_message
          (save_leaderboard_message emptyDB "monthly" 100) "monthly" 200)
        "monthly" ≠ some 200 := by
  constructor
  · decide
  · decide

/-- C4: one `observe(owner, c)` step of the rental delta tracker (with the
guild member search succeeding, the `true` argument): the emitted events are
exactly `c − previous` copies of the single-unit rental increment for that
owner — so `c − p` events when the count grew, none when it shrank or stayed
equal — and the stored count is overwritten with `c` whether or not the
member search succeeded. -/
theorem claim_c4_rental_delta (st : RentalState) (owner : String) (c : Nat) :
    (rental_observe st owner c true).1
        = List.replicate (c - lookupCount st owner) (Fact.rental owner)
    ∧ (rental_observe st owner c true).1.length = c - lookupCount st owner
    ∧ (∀ b : Bool, lookupCount (rental_observe st owner c b).2 owner = c) := by
  refine ⟨?_, ?_, ?_⟩
  · by_cases h : lookupCount st owner < c
    · simp [rental_observe, h]
    · have hz : c - lookupCount st owner = 0 := by omega
      simp [rental_observe, h, hz]
  · by_cases h : lookupCount st owner < c
    · simp [rental_observe, h]
    · have hz : c - lookupCount st owner = 0 := by omega
      simp [rental_observe, h, hz]
  · intro b
    simp only [rental_observe]
    exact lookupCount_setCount_self st owner c

/-- C6: the monthly reset empties every `topN('monthly')` category, leaves
every `topN('overall')` result unchanged, and removes every active session
row of both kinds. -/
theorem claim_c6_reset_monthly (db : DB) (n : Nat) (cat : String) :
    topForStat (reset_monthly_stats db).monthly_stats cat n = []
    ∧ topForStat (reset_monthly_stats db).overall_stats cat n
        = topForStat db.overall_stats cat n
    ∧ (∀ s ∈ (reset_monthly_stats db).voice_sessions, s.is_active = false)
    ∧ (∀ s ∈ (reset_monthly_stats db).activity_sessions, s.is_active = false) := by
  refine ⟨?_, rfl, ?_, ?_⟩
  · show topForStat [] cat n = []
    simp [topForStat, sortByValueDesc]
  · intro s hs
    simp only [reset_monthly_stats, List.mem_filter, Bool.not_eq_true'] at hs
    exact hs.2
  · intro s hs
    simp only [reset_monthly_stats, List.mem_filter, Bool.not_eq_true'] at hs
    exact hs.2

/-- Witness for C6: on a sample database the reset empties the monthly top
query, preserves the overall top query, and the surviving session rows —
one closed voice and one closed activity session — are inactive. -/
theorem claim_c6_reset_monthly_witness :
    topForStat (reset_monthly_stats sampleResetDB).monthly_stats "message_count" 4 = []
    ∧ topForStat (reset_monthly_stats sampleResetDB).overall_stats "message_count" 4
        = topForStat sampleResetDB.overall_stats "message_count" 4
    ∧ (⟨0, "u", "n", 5, false⟩ : Session).is_active = false
    ∧ (⟨0, "u", "n", 2, false⟩ : Session).is_active = false := by
  have h := claim_c6_reset_monthly sampleResetDB 4 "message_count"
  exact ⟨h.1, h.2.1, h.2.2.1 ⟨0, "u", "n", 5, false⟩ (by decide),
    h.2.2.2 ⟨0, "u", "n", 2, false⟩ (by decide)⟩

/-- C10: the embed parser reads only the first embed of an announcer message —
any trailing embeds never change the produced facts or the rental state — and
a bot message with an empty embed list produces no facts, no state change and
no error. -/
theorem claim_c10_first_embed_only (resolve : String → Bool) (selfId : Nat)
    (name : String) (aid : Nat) (e : Embed) (rest : List Embed)
    (st : RentalState) :
    parse_bot_embeds resolve selfId ⟨name, aid, e :: rest⟩ st
        = parse_bot_embeds resolve selfId ⟨name, aid, [e]⟩ st
    ∧ parse_bot_embeds resolve selfId ⟨name, aid, []⟩ st = ([], st) := by
  exact ⟨rfl, rfl⟩

/-- Scanning for the declined mark stops exactly at the first `❌`. -/
theorem takeWhile_until_mark (mid post : List Char) (hmid : '❌' ∉ mid) :
    (mid ++ '❌' :: post).takeWhile (fun c => c ≠ '❌') = mid := by
  induction mid with
  | nil =>
      rw [List.nil_append, List.takeWhile_cons, if_neg (by simp)]
  | cons c cs ih =>
      have hc : c ≠ '❌' := by
        intro h
        exact hmid (by simp [h])
      have hcs : '❌' ∉ cs := fun h => hmid (List.mem_cons_of_mem _ h)
      rw [List.cons_append, List.takeWhile_cons, if_pos (by simp [hc]), ih hcs]

/-- C5 counterexample: in a description whose declined section is introduced
by the word `Declined` without the `❌` character, the mention `<@333>`
standing in the declined section IS extracted as an attendance fact — the
code delimits the accepted span by `❌` alone, not by the `Declined`
marker, so with no `❌` present the span runs to the end of the text. -/
theorem claim_c5_counterexample :
    parse_apollo_embed (some "✅ Accepted (1)\n<@111>\nDeclined\n<@333>")
      = ["111", "333"]
    ∧ "333" ∈ parse_apollo_embed (some "✅ Accepted (1)\n<@111>\nDeclined\n<@333>") := by
  constructor
  · decide
  · decide

/-- A prefix run of a predicate is unchanged by appending one rejected
character. -/
theorem takeWhile_append_last (p : Char → Bool) (t : List Char) (a : Char)
    (ha : p a = false) : (t ++ [a]).takeWhile p = t.takeWhile p := by
  induction t with
  | nil => simp [List.takeWhile_cons, ha]
  | cons c cs ih =>
      by_cases hc : p c = true
      · rw [List.cons_append, List.takeWhile_cons, List.takeWhile_cons,
          if_pos hc, if_pos hc, ih]
      · rw [List.cons_append, List.takeWhile_cons, List.takeWhile_cons,
          if_neg hc, if_neg hc]

/-- A prefix run never exceeds the text. -/
theorem takeWhile_length_le (p : Char → Bool) (l : List Char) :
    (l.takeWhile p).length ≤ l.length := by
  induction l with
  | nil => simp
  | cons c cs ih =>
      rw [List.takeWhile_cons]
      split
      · simpa using ih
      · simp

/-- A position whose first two characters are not `<@` matches no mention. -/
theorem matchMentionAt_no_head (c1 c2 : Char) (x : List Char)
    (h : ¬(c1 = '<' ∧ c2 = '@')) : matchMentionAt (c1 :: c2 :: x) = none := by
  unfold matchMentionAt
  split
  · rename_i r heq
    simp only [List.cons.injEq] at heq
    exact absurd ⟨heq.1, heq.2.1⟩ h
  · rfl

/-- A single character matches no mention. -/
theorem matchMentionAt_singleton (c : Char) : matchMentionAt [c] = none := by
  unfold matchMentionAt
  split
  · rename_i r heq
    simp at heq
  · rfl

/-- Dropping the optional `!` commutes with appending a trailing newline. -/
theorem mentionAfterBang_cons_ne (c : Char) (x : List Char) (hc : c ≠ '!') :
    mentionAfterBang (c :: x) = c :: x := by
  unfold mentionAfterBang
  split
  · rename_i t heq
    simp only [List.cons.injEq] at heq
    exact absurd heq.1 hc
  · rfl

/-- Appending a newline passes through the optional-`!` step. -/
theorem mentionAfterBang_append_newline (rest : List Char) :
    mentionAfterBang (rest ++ ['\n']) = mentionAfterBang rest ++ ['\n'] := by
  rcases rest with _ | ⟨c, t⟩
  · rfl
  · by_cases hc : c = '!'
    · subst hc
      rfl
    · rw [List.cons_append, mentionAfterBang_cons_ne c (t ++ ['\n']) hc,
        mentionAfterBang_cons_ne c t hc, List.cons_append]

/-- A trailing newline — not a digit and not `>` — changes neither the
success nor the digit group of the `(\d+)>` part. -/
theorem mentionDigitsPart_append_newline (u : List Char) :
    (mentionDigitsPart (u ++ ['\n'])).map Prod.fst
      = (mentionDigitsPart u).map Prod.fst := by
  simp only [mentionDigitsPart]
  have htw : (u ++ ['\n']).takeWhile Char.isDigit = u.takeWhile Char.isDigit :=
    takeWhile_append_last _ _ _ (by decide)
  rw [htw]
  by_cases he : (u.takeWhile Char.isDigit).isEmpty
  · rw [if_pos he, if_pos he]
  · rw [if_neg he, if_neg he,
      List.drop_append_of_le_length (takeWhile_length_le Char.isDigit u)]
    cases hdrop : u.drop (u.takeWhile Char.isDigit).length with
    | nil => rfl
    | cons c0 t0 =>
        rw [List.cons_append]
        by_cases hc : c0 = '>'
        · subst hc
          rfl
        · split
          · rename_i tail heq
            simp only [List.cons.injEq] at heq
            exact absurd heq.1 hc
          · split
            · rename_i tail heq
              simp only [List.cons.injEq] at heq
              exact absurd heq.1 hc
            · rfl

/-- Appending a newline to the text changes neither the success nor the digit
group of a mention match at any position (a mention contains no newline). -/
theorem matchMentionAt_append_newline (s : List Char) :
    (matchMentionAt (s ++ ['\n'])).map Prod.fst
      = (matchMentionAt s).map Prod.fst := by
  rcases s with _ | ⟨c1, _ | ⟨c2, t⟩⟩
  · rfl
  · by_cases h1 : c1 = '<'
    · subst h1
      rfl
    · have hL : matchMentionAt (c1 :: ['\n']) = none := by
        unfold matchMentionAt
        split
        · rename_i r heq
          simp only [List.cons.injEq] at heq
          exact absurd heq.1 h1
        · rfl
      rw [List.cons_append, List.nil_append, hL, matchMentionAt_singleton]
  · by_cases h12 : c1 = '<' ∧ c2 = '@'
    · obtain ⟨rfl, rfl⟩ := h12
      rw [List.cons_append, List.cons_append]
      show (mentionDigitsPart (mentionAfterBang (t ++ ['\n']))).map Prod.fst
          = (mentionDigitsPart (mentionAfterBang t)).map Prod.fst
      rw [mentionAfterBang_append_newline]
      exact mentionDigitsPart_append_newline _
    · rw [List.cons_append, List.cons_append,
        matchMentionAt_no_head c1 c2 (t ++ ['\n']) h12,
        matchMentionAt_no_head c1 c2 t h12]

/-- A trailing newline contributes no mention and hides none. -/
theorem findMentions_append_newline (s : List Char) :
    findMentions (s ++ ['\n']) = findMentions s := by
  induction s with
  | nil => rfl
  | cons c cs ih =>
      rw [List.cons_append]
      have hm := matchMentionAt_append_newline (c :: cs)
      rw [List.cons_append] at hm
      cases hR : matchMentionAt (c :: cs) with
      | none =>
          rw [hR] at hm
          cases hL : matchMentionAt (c :: (cs ++ ['\n'])) with
          | some p =>
              rw [hL] at hm
              simp at hm
          | none =>
              simp only [findMentions, hL, hR]
              exact ih
      | some p =>
          rw [hR] at hm
          cases hL : matchMentionAt (c :: (cs ++ ['\n'])) with
          | none =>
              rw [hL] at hm
              simp at hm
          | some q =>
              rw [hL] at hm
              have hds : q.1 = p.1 := by simpa using hm
              obtain ⟨ds, tl⟩ := p
              obtain ⟨ds2, tl2⟩ := q
              simp only [findMentions, hL, hR]
              simp only at hds
              rw [hds, ih]

/-- The `$`-preferred position before a single trailing newline yields the
same mentions as the end of the text. -/
theorem findMentions_dropTrailingNewline (s : List Char) :
    findMentions (dropTrailingNewline s) = findMentions s := by
  induction s using List.reverseRecOn with
  | nil => rfl
  | append_singleton init a _ih =>
      unfold dropTrailingNewline
      rw [List.getLast?_concat]
      by_cases ha : a = '\n'
      · subst ha
        simp only [if_pos rfl, List.dropLast_concat]
        exact (findMentions_append_newline init).symm
      · simp only [if_neg ha]

/-- C5 (amended): whenever the accepted marker matches, with `rest` the text
after the leftmost `✅ Accepted (N)` marker, the extractor emits exactly one
fact per mention token in the span from the marker to the first following
`❌` character when one occurs — mentions after that `❌` are never counted —
and, when no `❌` occurs at all, one fact per mention token in the whole
remaining text (so a `Declined` heading without the emoji does not end the
span). -/
theorem claim_c5_accepted_span (d : String) (rest : List Char)
    (hspan : findAcceptedSpan d.toList = some rest) :
    (∀ mid post, rest = mid ++ '❌' :: post → '❌' ∉ mid →
      parse_apollo_embed (some d) = findMentions mid)
    ∧ ('❌' ∉ rest → parse_apollo_embed (some d) = findMentions rest) := by
  have hd : ¬ d = "" := by
    intro h
    subst h
    rw [show ("" : String).toList = [] from rfl] at hspan
    simp [findAcceptedSpan] at hspan
  constructor
  · intro mid post hrest hmid
    subst hrest
    have hmem : '❌' ∈ mid ++ '❌' :: post := by simp
    simp only [parse_apollo_embed, if_neg hd, hspan]
    simp only [takeUntilDeclinedMark, if_pos hmem]
    rw [takeWhile_until_mark mid post hmid]
  · intro hno
    simp only [parse_apollo_embed, if_neg hd, hspan]
    simp only [takeUntilDeclinedMark, if_neg hno]
    exact findMentions_dropTrailingNewline rest

/-- Witness for the amended C5: on the spec's example the `❌`-delimited
branch yields facts for users 111 and 222 only — 333, listed under
`❌ Declined`, never appears — and on a text with no `❌` the span runs to
the end of the text. -/
theorem claim_c5_accepted_span_witness :
    parse_apollo_embed (some "✅ Accepted (2)\n<@111> <@222>\n❌ Declined\n<@333>")
      = ["111", "222"]
    ∧ parse_apollo_embed (some "✅ Accepted (1)\n<@7>\n") = ["7"] := by
  constructor
  · have h := (claim_c5_accepted_span
      "✅ Accepted (2)\n<@111> <@222>\n❌ Declined\n<@333>"
      ("\n<@111> <@222>\n".toList ++ '❌' :: " Declined\n<@333>".toList)
      (by decide)).1 "\n<@111> <@222>\n".toList " Declined\n<@333>".toList
      rfl (by decide)
    rw [h]
    decide
  · have h := (claim_c5_accepted_span "✅ Accepted (1)\n<@7>\n"
      "\n<@7>\n".toList (by decide)).2 (by decide)
    rw [h]
    decide

/-- Membership in an insertion step of the descending sort. -/
theorem mem_insertDesc (a e : Entry) (l : List Entry) :
    a ∈ insertDesc e l ↔ a = e ∨ a ∈ l := by
  induction l with
  | nil => simp [insertDesc]
  | cons x xs ih =>
      unfold insertDesc
      split
      · simp [List.mem_cons]
      · simp only [List.mem_cons, ih]
        tauto

/-- Inserting into a list sorted by value descending keeps it sorted. -/
theorem pairwise_insertDesc (e : Entry) (l : List Entry)
    (h : l.Pairwise (fun a b => b.value ≤ a.value)) :
    (insertDesc e l).Pairwise (fun a b => b.value ≤ a.value) := by
  induction l with
  | nil => simp [insertDesc]
  | cons x xs ih =>
      rcases List.pairwise_cons.1 h with ⟨hx, hxs⟩
      unfold insertDesc
      split
      · rename_i hle
        refine List.pairwise_cons.2 ⟨?_, h⟩
        intro b hb
        rcases List.mem_cons.1 hb with rfl | hbxs
        · exact hle
        · exact le_trans (hx b hbxs) hle
      · rename_i hgt
        refine List.pairwise_cons.2 ⟨?_, ih hxs⟩
        intro b hb
        rcases (mem_insertDesc b e xs).1 hb with rfl | hbxs
        · exact le_of_lt (lt_of_not_le hgt)
        · exact hx b hbxs

/-- The descending sort is sorted (non-increasing by value). -/
theorem pairwise_sortByValueDesc (l : List Entry) :
    (sortByValueDesc l).Pairwise (fun a b => b.value ≤ a.value) := by
  induction l with
  | nil => simp [sortByValueDesc]
  | cons e es ih => exact pairwise_insertDesc e _ ih

/-- The descending sort neither adds nor drops entries. -/
theorem mem_sortByValueDesc (a : Entry) (l : List Entry) :
    a ∈ sortByValueDesc l ↔ a ∈ l := by
  induction l with
  | nil => simp [sortByValueDesc]
  | cons e es ih =>
      unfold sortByValueDesc
      rw [mem_insertDesc, ih, List.mem_cons]

/-- C7 counterexample: two users tied at value 5 under `message_count` — the
returned list contains two adjacent entries of equal value, so the entries are
NOT strictly descending by value (the spec itself allows ties broken by store
order, contradicting strictness). -/
theorem claim_c7_counterexample :
    topForStat (increment_stat (increment_stat emptyDB "u1" "n1" "message_count" 5)
        "u2" "n2" "message_count" 5).monthly_stats "message_count" 10
      = [⟨"u1", "n1", 5⟩, ⟨"u2", "n2", 5⟩]
    ∧ ¬ (topForStat (increment_stat (increment_stat emptyDB "u1" "n1" "message_count" 5)
        "u2" "n2" "message_count" 5).monthly_stats "message_count" 10).Pairwise
          (fun a b => b.value < a.value) := by
  constructor
  · decide
  · decide

/-- C7 (amended): for every table, category and limit `n`, `topN` returns at
most `n` entries, every returned entry has value > 0, and the entries are
non-increasing by value (descending, with ties possible). -/
theorem claim_c7_topn_bounded_positive_sorted (tbl : List StatRow) (cat : String)
    (n : Nat) :
    (topForStat tbl cat n).length ≤ n
    ∧ (∀ e ∈ topForStat tbl cat n, 0 < e.value)
    ∧ (topForStat tbl cat n).Pairwise (fun a b => b.value ≤ a.value) := by
  refine ⟨?_, ?_, ?_⟩
  · unfold topForStat
    rw [List.length_take]
    exact min_le_left _ _
  · intro e he
    unfold topForStat at he
    have h1 := List.mem_of_mem_take he
    rw [mem_sortByValueDesc] at h1
    rcases List.mem_map.1 h1 with ⟨r, hr, rfl⟩
    have h2 := (List.mem_filter.1 hr).2
    simpa using h2
  · exact List.Pairwise.sublist (List.take_sublist _ _) (pairwise_sortByValueDesc _)

/-- Witness for the amended C7: on a sample table with values 5 and 2 under
limit 1, the query returns at most one entry, the returned entry `(u1, 5)`
has positive value, and the result is sorted non-increasingly. -/
theorem claim_c7_topn_bounded_positive_sorted_witness :
    (topForStat sampleTopTbl "message_count" 1).length ≤ 1
    ∧ 0 < (⟨"u1", "n1", 5⟩ : Entry).value
    ∧ (topForStat sampleTopTbl "message_count" 1).Pairwise
        (fun a b => b.value ≤ a.value) := by
  have h := claim_c7_topn_bounded_positive_sorted sampleTopTbl "message_count" 1
  exact ⟨h.1, h.2.1 ⟨"u1", "n1", 5⟩ (by decide), h.2.2⟩

/-- `increment_stat` touches only the two stats tables. -/
theorem increment_stat_activity (db : DB) (u n cat : String) (a : Int) :
    (increment_stat db u n cat a).activity_sessions = db.activity_sessions := by
  unfold increment_stat
  split
  · rfl
  · rfl

/-- Ending a voice session leaves the activity-session table unchanged. -/
theorem end_voice_session_activity (db : DB) (u n : String) (t : Int) :
    (end_voice_session db u n t).activity_sessions = db.activity_sessions := by
  unfold end_voice_session
  cases mostRecentActive db.voice_sessions u with
  | none => rfl
  | some s => exact increment_stat_activity db u n "voice_time" (t - s.start_time)

/-- A pointwise map that never turns a row from rejected to accepted cannot
grow a filter. -/
theorem length_filter_map_le (f : Session → Session) (p : Session → Bool)
    (hf : ∀ s, p (f s) = true → p s = true) (l : List Session) :
    ((l.map f).filter p).length ≤ (l.filter p).length := by
  induction l with
  | nil => simp
  | cons s ss ih =>
      simp only [List.map_cons, List.filter_cons]
      by_cases h : p (f s) = true
      · rw [if_pos h, if_pos (hf s h)]
        simpa using ih
      · rw [if_neg h]
        split
        · exact le_trans ih (Nat.le_succ _)
        · exact ih

/-- Deactivating one session row can only shrink the active count. -/
theorem activeActCount_markInactive_le (l : List Session) (i : Nat) (u : String) :
    ((markInactive l i).filter (fun s => s.user_id == u && s.is_active)).length
      ≤ (l.filter (fun s => s.user_id == u && s.is_active)).length := by
  refine length_filter_map_le _ _ ?_ l
  intro s hp
  by_cases h : s.sid = i
  · rw [if_pos h] at hp
    simp at hp
  · rwa [if_neg h] at hp

/-- The idempotent activity-session start preserves the at-most-one-active
invariant for every user. -/
theorem start_activity_session_count (db : DB) (u n : String) (t : Int)
    (u' : String) (h : activeActCount db u' ≤ 1) :
    activeActCount (start_activity_session db u n t) u' ≤ 1 := by
  unfold start_activity_session
  split
  · exact h
  · rename_i hany
    unfold activeActCount at h ⊢
    simp only [List.filter_append, List.length_append]
    by_cases hu : u = u'
    · subst hu
      have hnil : db.activity_sessions.filter
          (fun s => s.user_id == u && s.is_active) = [] := by
        rw [List.filter_eq_nil_iff]
        intro s hs hp
        exact hany (List.any_eq_true.2 ⟨s, hs, hp⟩)
      rw [hnil]
      simp
    · have hrow : ([(⟨db.next_activity_id, u, n, t, true⟩ : Session)]).filter
          (fun s => s.user_id == u' && s.is_active) = [] := by
        simp [hu]
      rw [hrow]
      simpa using h

/-- Ending an activity session preserves the at-most-one-active invariant. -/
theorem end_activity_session_count (db : DB) (u n : String) (t : Int)
    (u' : String) (h : activeActCount db u' ≤ 1) :
    activeActCount (end_activity_session db u n t) u' ≤ 1 := by
  unfold end_activity_session
  cases hm : mostRecentActive db.activity_sessions u with
  | none => exact h
  | some s =>
      show ((markInactive (increment_stat db u n "lineage_time"
          (t - s.start_time)).activity_sessions s.sid).filter
            (fun s2 => s2.user_id == u' && s2.is_active)).length ≤ 1
      rw [increment_stat_activity]
      exact le_trans (activeActCount_markInactive_le _ _ _) h

/-- The monthly reset deletes every active activity session. -/
theorem reset_monthly_stats_count (db : DB) (u' : String) :
    activeActCount (reset_monthly_stats db) u' = 0 := by
  unfold activeActCount reset_monthly_stats
  rw [List.filter_filter, List.length_eq_zero, List.filter_eq_nil_iff]
  intro s _
  cases hsa : s.is_active <;> simp [hsa]

/-- Every single operation preserves the at-most-one-active-activity-session
invariant for every user. -/
theorem applyOp_preserves (db : DB) (op : Op) (u' : String)
    (h : activeActCount db u' ≤ 1) : activeActCount (applyOp db op) u' ≤ 1 := by
  cases op with
  | startVoice u n t => exact h
  | endVoice u n t =>
      show activeActCount (end_voice_session db u n t) u' ≤ 1
      unfold activeActCount
      rw [end_voice_session_activity]
      exact h
  | startActivity u n t => exact start_activity_session_count db u n t u' h
  | endActivity u n t => exact end_activity_session_count db u n t u' h
  | inc u n cat a =>
      show activeActCount (increment_stat db u n cat a) u' ≤ 1
      unfold activeActCount
      rw [increment_stat_activity]
      exact h
  | resetMonthly =>
      show activeActCount (reset_monthly_stats db) u' ≤ 1
      rw [reset_monthly_stats_count]
      exact Nat.zero_le 1

/-- C8: every user has at most one active activity session at any time: for
every sequence of tracked operations starting from the empty database, at
most one active `activity_sessions` row exists per user — the idempotent
`start_activity_session` never opens a second one. -/
theorem claim_c8_at_most_one_active_activity (ops : List Op) (u : String) :
    activeActCount (ops.foldl applyOp emptyDB) u ≤ 1 := by
  have main : ∀ (l : List Op) (db : DB), (∀ v, activeActCount db v ≤ 1) →
      ∀ v, activeActCount (l.foldl applyOp db) v ≤ 1 := by
    intro l
    induction l with
    | nil => intro db h v; exact h v
    | cons op rest ih =>
        intro db h v
        exact ih (applyOp db op) (fun w => applyOp_preserves db op w (h w)) v
  exact main ops emptyDB (fun v => Nat.zero_le 1) u

/-- C9 (spec-modelled): for every transaction-marked message, the currency
extractor pairs the first user mention found anywhere in the body with the
absolute value of the parsed integer amount (separators stripped); when the
amount fails to parse as an integer, no fact is emitted, and the extractor is
a total function (never raising). -/
theorem claim_c9_currency (txMarker unitLabel : String) (title : Option String)
    (desc : String)
    (htitle : titleMarksNewTransaction txMarker title = true) :
    (∀ (m : Int) (uid : String),
      extractAmount unitLabel.toList desc.toList = some m →
      firstMention desc.toList = some uid →
      parse_accounting_embed txMarker unitLabel title desc = [(uid, m.natAbs)])
    ∧ (extractAmount unitLabel.toList desc.toList = none →
      parse_accounting_embed txMarker unitLabel title desc = []) := by
  constructor
  · intro m uid hm huid
    unfold parse_accounting_embed
    rw [if_pos htitle, hm, huid]
  · intro hm
    unfold parse_accounting_embed
    rw [if_pos htitle, hm]

/-- Witness for C9: a transaction message with body
`Hráč <@55> dostal -1.250 adena` yields the single fact `("55", 1250)` —
first mention, separators stripped, absolute value — and the same body with a
non-numeric amount yields no fact. -/
theorem claim_c9_currency_witness :
    parse_accounting_embed "Nová transakce" "adena" (some "Nová transakce #42")
        "Hráč <@55> dostal -1.250 adena" = [("55", 1250)]
    ∧ parse_accounting_embed "Nová transakce" "adena" (some "Nová transakce #42")
        "Hráč <@55> dostal XYZ adena" = [] := by
  constructor
  · have h := (claim_c9_currency "Nová transakce" "adena" (some "Nová transakce #42")
      "Hráč <@55> dostal -1.250 adena" (by decide)).1 (-1250) "55"
      (by decide) (by decide)
    simpa using h
  · exact (claim_c9_currency "Nová transakce" "adena" (some "Nová transakce #42")
      "Hráč <@55> dostal XYZ adena" (by decide)).2 (by decide)

end Leaderboards
